import Mathlib

/-!
Verification development for the dom-builder library.

The library has three functions, embedded here from their sources:

* parseDomString (src/parseDomString.js): parses a compact string of the
  form tag#id.class1.class2(attr:val,...) content into a specification
  record.  The JavaScript source matches one anchored regular expression;
  the embedding implements that regular expression's matching behaviour
  (greedy letter/word runs, an optional id group, a greedy class loop, a
  lazily-extended bracketed attribute block that backtracks until the rest
  of the pattern matches, and a trailing space-separated content group),
  followed by the same post-processing as the source.

* domBuilderBasicSetup (src/domBuilderBasicSetup.js): applies class, id and
  attribute fields of a record to a node; it also mutates the record, which
  the embedding models by returning the updated record next to the node.

* domBuilder (src/domBuilder.js): walks the configuration array and builds
  a node tree.  Host-document nodes live in a Doc heap (a list of node
  records addressed by index) because the source mutates nodes after they
  have been appended to a parent; the host capabilities (create a node, set
  an attribute, append a child, set raw content) are modelled on this heap.
  Raw content (innerHTML) is kept as a separate string field, matching the
  spec's separate set-raw-content capability.  JavaScript exceptions
  (accessing a field of null, appending an undefined node) are modelled by
  an Option result.  The recursion into children is bounded by a fuel
  parameter that only decreases when entering a children list, so any
  terminating source run is reproduced by every sufficiently large fuel.
-/

/-- Update the first binding of key n in an association list, appending a new
binding at the end when the key is absent.  This is the behaviour of both
element.setAttribute on a node's attribute list and of JavaScript object key
assignment obj[k] = v. -/
def updateAssoc {α : Type} : List (String × α) → String → α → List (String × α)
  | [], n, v => [(n, v)]
  | (m, w) :: t, n, v => if m = n then (m, v) :: t else (m, w) :: updateAssoc t n v

/-- First binding of a key in an association list. -/
def lookupA {α : Type} : List (String × α) → String → Option α
  | [], _ => none
  | (m, w) :: t, n => if m = n then some w else lookupA t n

/-- Whether a key occurs in an association list. -/
def hasKey {α : Type} (l : List (String × α)) (n : String) : Bool :=
  (lookupA l n).isSome

/-- Replace the value at the first occurrence of a key, doing nothing when the
key is absent (used only in proofs about updateAssoc). -/
def setFirstVal {α : Type} : List (String × α) → String → α → List (String × α)
  | [], _, _ => []
  | (m, w) :: t, n, v => if m = n then (m, v) :: t else (m, w) :: setFirstVal t n v

/-- Apply a list of writes with updateAssoc, left to right. -/
def applyWrites (w : List (String × String)) (a : List (String × String)) :
    List (String × String) :=
  w.foldl (fun acc q => updateAssoc acc q.1 q.2) a

/-! ### Character classes of the parseDomString regular expression -/

/-- Characters matched by [a-zA-Z] (the tag segment). -/
def isTagChar (c : Char) : Bool :=
  ('a' ≤ c && c ≤ 'z') || ('A' ≤ c && c ≤ 'Z')

/-- Characters matched by [a-zA-Z0-9_-] (id and class tokens). -/
def isWordChar (c : Char) : Bool :=
  isTagChar c || ('0' ≤ c && c ≤ '9') || c = '_' || c = '-'

/-- Opening delimiters of the attribute block. -/
def isOpenBracket (c : Char) : Bool :=
  c = '(' || c = '[' || c = '\x7b'

/-- Closing delimiters of the attribute block. -/
def isCloseBracket (c : Char) : Bool :=
  c = ')' || c = ']' || c = '\x7d'

/-- Line terminators, which the regular expression's dot does not match. -/
def isLineTerm (c : Char) : Bool :=
  c = '\n' || c = '\r' || c = ' ' || c = ' '

/-- White space as recognised by JavaScript's trim and the backslash-s class
(restricted to the code points a caller can realistically supply). -/
def isJsSpace (c : Char) : Bool :=
  c = ' ' || c = '\t' || c = '\n' || c = '\r' || c = '\x0b' || c = '\x0c' ||
  c = ' ' || c = '﻿'

/-- Drop leading JavaScript white space. -/
def trimL (l : List Char) : List Char := l.dropWhile isJsSpace

/-- Drop trailing JavaScript white space. -/
def trimR (l : List Char) : List Char := (l.reverse.dropWhile isJsSpace).reverse

/-- JavaScript String.prototype.trim on a character list. -/
def jsTrim (l : List Char) : List Char := trimL (trimR l)

/-- Pack a character list back into a string. -/
def strOf (l : List Char) : String := String.mk l

/-! ### The regular expression match of parseDomString

The source matches
  new RegExp(tag? id? classes? attrs? content?) anchored by a caret and a
  dollar, with segments ([a-zA-Z]+)?, (?:#([a-zA-Z0-9_-]+))?,
  ((?:[.][a-zA-Z0-9_-]+)*)?, ([([b].*?[)]d])? and (?: +(.*))?.
Since the pattern is anchored at position 0 and no later segment can consume
a letter, a word character, a dot, a hash or a bracket given back by an
earlier greedy segment, the tag, id and class segments match by maximal munch
and never backtrack; the only live backtracking is the lazy dot-star of the
attribute block, which extends to the next closing bracket until the rest of
the pattern (content group then end anchor) matches the remainder. -/

/-- The greedy class segment: repeatedly consume a dot followed by a nonempty
word-character run.  The Nat argument is a structural-recursion bound; every
iteration consumes at least two characters, so the wrapper's bound (the
input length) is never exhausted. -/
def classLoopF : Nat → List Char → List Char × List Char
  | _, [] => ([], [])
  | 0, l => ([], l)
  | Nat.succ fl, c :: t =>
    if c = '.' then
      let w := t.takeWhile isWordChar
      if w = [] then ([], c :: t)
      else
        let r := classLoopF fl (t.dropWhile isWordChar)
        ('.' :: w ++ r.1, r.2)
    else ([], c :: t)

/-- The greedy class segment of the regular expression. -/
def classLoop (l : List Char) : List Char × List Char := classLoopF l.length l

/-- The trailing (?: +(.*))? group followed by the end anchor: the remainder
matches if it is empty (no capture) or starts with a space and contains no
line terminator after the maximal initial space run (capture = that rest).
Returns none when the remainder cannot complete the match. -/
def contentEnd : List Char → Option (Option (List Char))
  | [] => some none
  | c :: t =>
    if c = ' ' then
      let u := (c :: t).dropWhile (fun x => x = ' ')
      if u.any isLineTerm then none else some (some u)
    else none

/-- The lazy body of the attribute block: extend the dot-star to each closing
bracket in turn (never across a line terminator) until the rest of the
pattern accepts the remainder.  Returns the consumed characters (including
the closing bracket) and the content capture of the accepted remainder. -/
def findAttrs : List Char → List Char → Option (List Char × Option (List Char))
  | [], _ => none
  | c :: t, acc =>
    if isCloseBracket c then
      match contentEnd t with
      | some cap => some (acc.reverse ++ [c], cap)
      | none => if isLineTerm c then none else findAttrs t (c :: acc)
    else if isLineTerm c then none else findAttrs t (c :: acc)

/-- Raw capture groups of the regular expression: tag, id, classes (raw text
with its dots), attribute block (with its brackets) and content. -/
structure RawCaps where
  tagCs : List Char
  idCs : Option (List Char)
  clsCs : List Char
  attrsRaw : Option (List Char)
  contentCs : Option (List Char)
deriving DecidableEq, Repr

/-- Match the anchored regular expression of parseDomString against a whole
string, returning the capture groups, or none when the match fails. -/
def matchDomRegex (s : List Char) : Option RawCaps :=
  let tagCs := s.takeWhile isTagChar
  let r1 := s.dropWhile isTagChar
  let idStep : Option (List Char) × List Char :=
    match r1 with
    | '#' :: t =>
      let w := t.takeWhile isWordChar
      if w = [] then (none, r1) else (some w, t.dropWhile isWordChar)
    | _ => (none, r1)
  let cls := classLoop idStep.2
  let r3 := cls.2
  let attrsStep : Option (List Char × Option (List Char)) :=
    match r3 with
    | c :: t =>
      if isOpenBracket c then (findAttrs t []).map (fun p => (c :: p.1, p.2))
      else none
    | [] => none
  match attrsStep with
  | some (raw, cap) => some ⟨tagCs, idStep.1, cls.1, some raw, cap⟩
  | none =>
    match contentEnd r3 with
    | some cap => some ⟨tagCs, idStep.1, cls.1, none, cap⟩
    | none => none

/-! ### Post-processing of the match (attribute block splitting, defaults) -/

/-- Attribute values produced by the string parser: a string, or true for a
pair given without a value. -/
inductive PAttrVal where
  | str (s : String)
  | trueV
deriving DecidableEq, Repr

/-- The result record of parseDomString: tag (defaulted and lower-cased), id,
className (classes joined by spaces), attrs (name to value, insertion
ordered, later writes of a name overwriting the earlier value in place, as
JavaScript object assignment does) and content. -/
structure ParseResult where
  tag : String
  id : Option String
  className : String
  attrs : List (String × PAttrVal)
  content : Option String
deriving DecidableEq, Repr

/-- Split a character list at every separator character, like
String.prototype.split with a single-character-class regular expression: the
result always has one more piece than there are separators, and an empty
input yields one empty piece. -/
def splitOnP (p : Char → Bool) : List Char → List (List Char)
  | [] => [[]]
  | c :: t =>
    if p c then [] :: splitOnP p t
    else
      match splitOnP p t with
      | h :: r => (c :: h) :: r
      | [] => [[c]]

/-- Separators of an attribute pair: colon or equals sign. -/
def isPairSep (c : Char) : Bool := c = ':' || c = '='

/-- Trim trailing white space from every piece except the last. -/
def trimTrailingExceptLast : List (List Char) → List (List Char)
  | [] => []
  | [p] => [p]
  | p :: r => trimR p :: trimTrailingExceptLast r

/-- Split on commas with the surrounding white space absorbed into the
separator, the splitting the source performs with the regular expression
backslash-s star comma backslash-s star: equivalently, split at commas, then
drop white space adjacent to a comma on either side (white space at the very
start of the first piece and the very end of the last piece is kept). -/
def splitCommaWs (l : List Char) : List (List Char) :=
  match trimTrailingExceptLast (splitOnP (fun c => c = ',') l) with
  | [] => []
  | p :: r => p :: r.map trimL

/-- Process one comma-separated piece of the attribute block, mirroring the
forEach body of the source: an empty piece is skipped; a piece containing a
colon or equals sign is split at every separator and only the first two parts
are kept (the limit-2 split of JavaScript), giving a trimmed name and a
trimmed value; a piece without a separator yields the value true. -/
def addAttrPair (acc : List (String × PAttrVal)) (piece : List Char) :
    List (String × PAttrVal) :=
  if piece = [] then acc
  else if piece.any isPairSep then
    match splitOnP isPairSep piece with
    | p0 :: p1 :: _ => updateAssoc acc (strOf (jsTrim p0)) (PAttrVal.str (strOf (jsTrim p1)))
    | [p0] => updateAssoc acc (strOf (jsTrim p0)) PAttrVal.trueV
    | [] => acc
  else updateAssoc acc (strOf (jsTrim piece)) PAttrVal.trueV

/-- Build the attribute record from the inside of the attribute block. -/
def buildAttrs (rawInner : List Char) : List (String × PAttrVal) :=
  (splitCommaWs rawInner).foldl addAttrPair []

/-- parseDomString (src/parseDomString.js): match the regular expression and
assemble the result record with its defaults; none models the null returned
on total match failure. -/
def parseDomString (domString : String) : Option ParseResult :=
  match matchDomRegex domString.toList with
  | none => none
  | some caps =>
    let tag := if caps.tagCs = [] then "div" else strOf (caps.tagCs.map Char.toLower)
    let id := match caps.idCs with
      | none => none
      | some cs => let t := jsTrim cs; if t = [] then none else some (strOf t)
    let classes : List String :=
      match caps.clsCs with
      | [] => []
      | _ :: rest => (splitOnP (fun c => c = '.') rest).map (fun c => strOf (jsTrim c))
    let rawAttrs : Option (List Char) := match caps.attrsRaw with
      | none => none
      | some cs => let t := jsTrim cs; if t = [] then none else some t
    let attrs := match rawAttrs with
      | none => []
      | some ra => buildAttrs (ra.drop 1).dropLast
    let content := match caps.contentCs with
      | none => none
      | some cs => let t := jsTrim cs; if t = [] then none else some (strOf t)
    some ⟨tag, id, String.intercalate " " classes, attrs, content⟩

/-! ### JavaScript values appearing in configuration records -/

/-- Attribute values a configuration record can carry.  String conversion and
null-ness checks follow JavaScript.  (Array-valued entries reachable only
through the degenerate spread of a pair array in the tag-chain merge are
represented by their string conversion, which is the only way the source
ever observes them.) -/
inductive AVal where
  | str (s : String)
  | num (n : Int)
  | boolV (b : Bool)
  | nullV
  | undef
deriving DecidableEq, Repr

/-- JavaScript String(v). -/
def jsString : AVal → String
  | .str s => s
  | .num n => toString n
  | .boolV b => if b then "true" else "false"
  | .nullV => "null"
  | .undef => "undefined"

/-- The v != null test of the source (null or undefined). -/
def AVal.isNullish : AVal → Bool
  | .nullV => true
  | .undef => true
  | _ => false

/-- The className / class field: a string or an array of strings. -/
inductive ClassF where
  | str (s : String)
  | arr (l : List String)
deriving DecidableEq, Repr

/-- JavaScript truthiness of a className value: the empty string is falsy,
any array is truthy. -/
def truthyClass : ClassF → Bool
  | .str s => s ≠ ""
  | .arr _ => true

/-- Truthiness of an optional className field (absent is falsy). -/
def truthyClassO : Option ClassF → Bool
  | none => false
  | some c => truthyClass c

/-- The string assigned by element.className = v: an array is filtered of
falsy entries and joined with single spaces, a string passes through. -/
def classString : ClassF → String
  | .str s => s
  | .arr l => String.intercalate " " (l.filter (fun x => x ≠ ""))

/-- The three input shapes of the attrs field: a single flat [name, value]
pair, an array of such pairs, or a plain object mapping (kept with its
insertion order, as Object.entries preserves it). -/
inductive AttrsVal where
  | single (n : String) (v : AVal)
  | pairList (l : List (String × AVal))
  | mapping (l : List (String × AVal))
deriving DecidableEq, Repr

/-! ### The host-node heap -/

/-- One host node: tag name, attribute list (setAttribute order), child node
indices, and the raw content last assigned through innerHTML.  The id and
class properties of a DOM element reflect the attributes named id and class,
so they are represented inside attrs. -/
structure NodeData where
  tag : String
  attrs : List (String × String)
  childIds : List Nat
  innerHTML : String
deriving DecidableEq, Repr

/-- element.setAttribute. -/
def NodeData.setAttr (nd : NodeData) (n v : String) : NodeData :=
  { nd with attrs := updateAssoc nd.attrs n v }

/-- The heap of host nodes; indices are node identities. -/
structure Doc where
  nodes : List NodeData
deriving DecidableEq, Repr

/-- Apply a function to the node at an index (no-op on a dangling index). -/
def Doc.modifyNode (d : Doc) (i : Nat) (f : NodeData → NodeData) : Doc :=
  match d.nodes[i]? with
  | some nd => ⟨d.nodes.set i (f nd)⟩
  | none => d

/-- document.createElement: allocate a fresh node and return its index. -/
def Doc.allocNode (d : Doc) (nd : NodeData) : Doc × Nat :=
  (⟨d.nodes ++ [nd]⟩, d.nodes.length)

/-- Remove a node index from a child list. -/
def NodeData.removeChild (nd : NodeData) (c : Nat) : NodeData :=
  { nd with childIds := nd.childIds.filter (fun x => x ≠ c) }

/-- parent.appendChild(child): a DOM append first detaches the child from any
current parent, then adds it as the last child. -/
def appendChild (d : Doc) (p c : Nat) : Doc :=
  Doc.modifyNode ⟨d.nodes.map (fun nd => nd.removeChild c)⟩ p
    (fun nd => { nd with childIds := nd.childIds ++ [c] })

/-- element.innerHTML = s: replaces the node's content, discarding existing
children. -/
def setInnerHTML (d : Doc) (i : Nat) (s : String) : Doc :=
  d.modifyNode i (fun nd => { nd with childIds := [], innerHTML := s })

/-! ### domBuilderBasicSetup (src/domBuilderBasicSetup.js) -/

/-- The fields domBuilderBasicSetup reads from its record argument. -/
structure SItem where
  class_ : Option ClassF
  className : Option ClassF
  attrs : Option AttrsVal
  id : Option String
deriving DecidableEq, Repr

/-- Step 1 of the source: if class is truthy and className is not, copy class
into className (a mutation of the record). -/
def aliasFix (it : SItem) : SItem :=
  if truthyClassO it.class_ && !truthyClassO it.className then
    { it with className := it.class_ }
  else it

/-- Step 2 of the source: a flat pair is wrapped into a one-element pair
array; a plain object is converted to its entries; a pair array passes
through (also a mutation of the record). -/
def normAttrs : Option AttrsVal → Option AttrsVal
  | some (.single n v) => some (.pairList [(n, v)])
  | some (.mapping l) => some (.pairList l)
  | a => a

/-- The pair list iterated by (attrs ?? []).forEach. -/
def attrPairs : Option AttrsVal → List (String × AVal)
  | some (.pairList l) => l
  | some (.single n v) => [(n, v)]
  | some (.mapping l) => l
  | none => []

/-- domBuilderBasicSetup: fix the class alias, normalize attrs, apply each
non-nullish attribute with setAttribute, then assign className and id (in
that order, so the record-level fields win over same-named attributes).  The
source mutates its record argument in place; the embedding returns the
mutated record as the second component. -/
def domBuilderBasicSetup (element : NodeData) (domBuilderItem : SItem) :
    NodeData × SItem :=
  let item1 := aliasFix domBuilderItem
  let item2 := { item1 with attrs := normAttrs item1.attrs }
  let e1 := (attrPairs item2.attrs).foldl
    (fun e p => if p.2.isNullish then e else e.setAttr p.1 (jsString p.2)) element
  let e2 := match item2.className with
    | some c => if truthyClass c then e1.setAttr "class" (classString c) else e1
    | none => e1
  let e3 := match item2.id with
    | some s => if s ≠ "" then e2.setAttr "id" s else e2
    | none => e2
  (e3, item2)

/-- The record as it stands after the two normalizing mutations of
domBuilderBasicSetup. -/
def normItem (it : SItem) : SItem :=
  { aliasFix it with attrs := normAttrs (aliasFix it).attrs }

/-- The attribute writes performed by the forEach of domBuilderBasicSetup on
a given pair list (nullish values skipped, others string-converted). -/
def attrWrites (l : List (String × AVal)) : List (String × String) :=
  l.filterMap (fun p => if p.2.isNullish then none else some (p.1, jsString p.2))

/-- All writes domBuilderBasicSetup performs on the node's attribute list, in
order: the attribute writes, then the class write, then the id write. -/
def setupWrites (it : SItem) : List (String × String) :=
  attrWrites (attrPairs (normItem it).attrs)
  ++ (match (normItem it).className with
      | some c => if truthyClass c then [("class", classString c)] else []
      | none => [])
  ++ (match (normItem it).id with
      | some s => if s ≠ "" then [("id", s)] else []
      | none => [])

/-! ### domBuilder (src/domBuilder.js) -/

/-- The tag field: a tag-name string or an ordered chain of segment
strings. -/
inductive TagF where
  | str (s : String)
  | arr (segs : List String)
deriving DecidableEq, Repr

/-- Possible results of a zero-argument content producer function. -/
inductive ContentRes where
  | str (s : String)
  | num (n : Int)
  | nodeRef (i : Nat)
  | nullV
  | undef
deriving DecidableEq, Repr

/-- The content field: a string, a number, a host node, or a producer
function (modelled by the value it returns). -/
inductive ContentF where
  | str (s : String)
  | num (n : Int)
  | nodeRef (i : Nat)
  | fnC (r : ContentRes)
deriving DecidableEq, Repr

/-- JavaScript truthiness of a content value (functions and nodes are
truthy, the empty string and zero are not). -/
def truthyContent : ContentF → Bool
  | .str s => s ≠ ""
  | .num n => n ≠ 0
  | .nodeRef _ => true
  | .fnC _ => true

/-- The string a value becomes when assigned to innerHTML (null maps to the
empty string per the LegacyNullToEmptyString attribute of innerHTML;
undefined to its usual string form). -/
def ihString : ContentRes → String
  | .str s => s
  | .num n => toString n
  | .nullV => ""
  | .undef => "undefined"
  | .nodeRef _ => "[object HTMLElement]"

/-- One item of the configuration array: a string, a null/undefined entry,
or a configuration record.  A record field set to none models an absent key.
Callbacks receive the created node and act on the host environment; the
embedding carries only their presence, and invoking one is a no-op.  The
fields are tag, id, className, class, attrs, content, condition, children,
callback. -/
inductive BItem where
  | strItem (s : String)
  | nullItem
  | recItem (tag : Option TagF) (id : Option String) (className : Option ClassF)
      (class_ : Option ClassF) (attrs : Option AttrsVal) (content : Option ContentF)
      (condition : Option Bool) (children : Option (List BItem))
      (callback : Option Unit)

/-- The fields of a configuration record, as a structure. -/
structure Fields where
  tag : Option TagF
  id : Option String
  className : Option ClassF
  class_ : Option ClassF
  attrs : Option AttrsVal
  content : Option ContentF
  condition : Option Bool
  children : Option (List BItem)
  callback : Option Unit

/-- The record an empty-string item behaves as: the source does not parse an
empty string (line 88 excludes it), yet the item passes the item != null
test of line 94, and every field access on the string primitive yields
undefined, so the body runs with all fields absent. -/
def emptyFields : Fields :=
  ⟨none, none, none, none, none, none, none, none, none⟩

/-- Attribute values of the string parser as record attribute values. -/
def avalOfP : PAttrVal → AVal
  | .str s => .str s
  | .trueV => .boolV true

/-- A pair of the string parser's attribute record as a record pair. -/
def pairToAVal (p : String × PAttrVal) : String × AVal :=
  (p.1, avalOfP p.2)

/-- The record a parsed string item becomes: parseDomString returns tag, id,
className and content as strings and attrs as a plain object mapping. -/
def fieldsOfParse (r : ParseResult) : Fields :=
  { tag := some (.str r.tag), id := r.id, className := some (.str r.className)
  , class_ := none, attrs := some (.mapping (r.attrs.map pairToAVal))
  , content := r.content.map ContentF.str, condition := none, children := none
  , callback := none }

/-- Lines 86 to 94 of the source: a null/undefined item is skipped; a
non-empty string item is replaced by its parse result (and skipped when the
parse returns null); an empty-string item falls through unparsed and behaves
as an all-absent record; a record passes through.  none means the item is
skipped. -/
def resolveItem : BItem → Option Fields
  | .nullItem => none
  | .strItem s =>
    if s = "" then some emptyFields
    else
      match parseDomString s with
      | none => none
      | some r => some (fieldsOfParse r)
  | .recItem t i cn cl a c cond ch cb => some ⟨t, i, cn, cl, a, c, cond, ch, cb⟩

/-- The local state of one domBuilder call: the document heap and the
variables parent (a parameter the source reassigns), mainElement, el and
grand_parent.  el and grand_parent persist across the items of one call,
exactly as the source declares them once per call. -/
structure BuildSt where
  doc : Doc
  parentV : Option Nat
  mainV : Option Nat
  elV : Option Nat
  gpV : Option Nat
deriving DecidableEq, Repr

/-- The fields of the merged record passed to domBuilderBasicSetup. -/
def sItemOf (f : Fields) : SItem :=
  ⟨f.class_, f.className, f.attrs, f.id⟩

/-- The object spread of an attrs value (line 111 of the source spreads
item.attrs over the parsed attrs with object spread syntax): a mapping
spreads to its entries; a flat pair array spreads to numeric keys holding
its two members; a pair array spreads to numeric keys holding the pairs
themselves, here represented by the string those array values convert to
whenever the source subsequently observes them. -/
def spreadPairsOf : AttrsVal → List (String × AVal)
  | .mapping l => l
  | .single n v => [("0", .str n), ("1", v)]
  | .pairList l =>
    l.enum.map (fun q =>
      (toString q.1, AVal.str (q.2.1 ++ "," ++ (if q.2.2.isNullish then "" else jsString q.2.2))))

/-- Line 111 of the source: item.attrs = the spread of the parsed segment's
attrs overlaid by the record's own attrs (record wins on key conflicts). -/
def mergeChainAttrs (pAttrs : List (String × PAttrVal)) (fAttrs : Option AttrsVal) :
    List (String × AVal) :=
  let base := pAttrs.map pairToAVal
  match fAttrs with
  | none => base
  | some a => (spreadPairsOf a).foldl (fun acc q => updateAssoc acc q.1 q.2) base

/-- The record passed to domBuilderBasicSetup for one chain segment: an
intermediate segment uses only its own parsed fragment; the last segment is
the parsed fragment overlaid by the present fields of the record (the spread
of line 115, with item.attrs already replaced by the merged mapping of line
111). -/
def chainSItem (f : Fields) (p : ParseResult) (isLast : Bool) : SItem :=
  if isLast then
    { class_ := f.class_
    , className := match f.className with
        | some c => some c
        | none => some (.str p.className)
    , attrs := some (.mapping (mergeChainAttrs p.attrs f.attrs))
    , id := match f.id with | some i => some i | none => p.id }
  else
    { class_ := none, className := some (.str p.className)
    , attrs := some (.mapping (p.attrs.map pairToAVal)), id := p.id }

/-- Lines 103 to 125 of the source: process the segments of a tag chain in
order.  A segment whose parse returns null makes the source dereference null
(parsedItem.attrs or parsedItem.tag), modelled as none.  Every segment
creates and decorates a node and assigns it to el; an intermediate segment
is appended to the current parent when one exists and becomes the new
parent. -/
def chainFold (f : Fields) : List String → BuildSt → Option BuildSt
  | [], st => some st
  | seg :: rest, st =>
    match parseDomString seg with
    | none => none
    | some p =>
      let isLast := rest = []
      let tagStr := if p.tag = "" then "div" else p.tag
      let nd := (domBuilderBasicSetup ⟨tagStr, [], [], ""⟩ (chainSItem f p isLast)).1
      let alloc := st.doc.allocNode nd
      let st1 : BuildSt := { st with doc := alloc.1, elV := some alloc.2 }
      if isLast then chainFold f rest st1
      else
        let st2 : BuildSt :=
          match st1.parentV with
          | some pid =>
            { st1 with doc := appendChild st1.doc pid alloc.2, parentV := some alloc.2 }
          | none => { st1 with parentV := some alloc.2 }
        chainFold f rest st2

/-- Lines 135 to 151 of the source: the content step.  The block runs only
when item.content is truthy.  A producer function is invoked with no
arguments; any other value passes through String conversion first, so only a
function-produced host node reaches the instanceof test as a node and is
appended; every other resolved value is assigned to innerHTML.  With no
element in el (possible only for an empty tag chain at the start of a call)
the dereference of el throws, modelled as none. -/
def contentStep (st : BuildSt) (c : Option ContentF) : Option BuildSt :=
  match c with
  | none => some st
  | some cf =>
    if truthyContent cf then
      let resolved : ContentRes :=
        match cf with
        | .fnC r => r
        | .str s => .str s
        | .num n => .str (toString n)
        | .nodeRef _ => .str "[object HTMLElement]"
      match st.elV with
      | none => none
      | some el =>
        match resolved with
        | .nodeRef nid => some { st with doc := appendChild st.doc el nid }
        | r => some { st with doc := setInnerHTML st.doc el (ihString r) }
    else some st

/-- The single-tag case (lines 128 to 131): create a node for the tag
(default div when the field is absent) and decorate it with the record. -/
def mkSingle (tagStr : String) (f : Fields) (st : BuildSt) : BuildSt :=
  let nd := (domBuilderBasicSetup ⟨tagStr, [], [], ""⟩ (sItemOf f)).1
  let alloc := st.doc.allocNode nd
  { st with doc := alloc.1, elV := some alloc.2 }

/-- Node creation and content for one item: the tag-chain case remembers the
current parent in grand_parent and runs the segment loop; the single-tag
case creates one node; then the content step runs. -/
def corePre (f : Fields) (st : BuildSt) : Option BuildSt :=
  let made : Option BuildSt :=
    match f.tag with
    | some (.arr segs) => chainFold f segs { st with gpV := st.parentV }
    | some (.str s) => some (mkSingle s f st)
    | none => some (mkSingle "div" f st)
  match made with
  | none => none
  | some st1 => contentStep st1 f.content

/-- Lines 162 to 177 of the source: record the first created element, append
el to the parent when one exists (appending an unassigned el throws,
modelled as none), invoke the callback (a no-op on the modelled state), and
restore the parent pointer from grand_parent whenever grand_parent is
truthy. -/
def corePost (st : BuildSt) : Option BuildSt :=
  let st1 := if st.mainV = none then { st with mainV := st.elV } else st
  let app : Option BuildSt :=
    match st1.parentV with
    | some p =>
      match st1.elV with
      | some e => some { st1 with doc := appendChild st1.doc p e }
      | none => none
    | none => some st1
  app.map (fun st2 => if st2.gpV.isSome then { st2 with parentV := st2.gpV } else st2)

/-- The body of the forEach of domBuilder for one item: resolve the item
(skipping null, unparsable and condition-false items), create and decorate
the node(s) and resolve content, recurse into children (the children
recursion starts a fresh call whose parent is el and whose emptyParent is
false, shares the document heap, and discards its own return value), then
run the tail steps.  The recursive call used for children is passed in as a
function so that the item body itself is not recursive. -/
def processOne (recurse : List BItem → BuildSt → Option BuildSt) (item : BItem)
    (st : BuildSt) : Option BuildSt :=
  match resolveItem item with
  | none => some st
  | some f =>
    if f.condition.getD true = false then some st
    else
      match corePre f st with
      | none => none
      | some st1 =>
        let afterChildren : Option BuildSt :=
          match f.children with
          | none => some st1
          | some cs =>
            match recurse cs ⟨st1.doc, st1.elV, none, none, none⟩ with
            | none => none
            | some stc => some { st1 with doc := stc.doc }
        match afterChildren with
        | none => none
        | some st2 => corePost st2

/-- The forEach of domBuilder over a list of items.  The fuel bounds the
total recursion depth (it decreases once per call, and children lists start
a recursive call), so any terminating source run is reproduced by every
sufficiently large fuel; fuel exhaustion yields none. -/
def build : Nat → List BItem → BuildSt → Option BuildSt
  | 0, _, _ => none
  | Nat.succ fuel', items, st =>
    items.foldlM (fun st item => processOne (build fuel') item st) st

/-- domBuilder (src/domBuilder.js): empty the parent when requested, run the
item loop with fresh local variables, and return the final document heap and
the first created element (null when no item produced one).  The options
object is represented by its single recognized key emptyParent, whose
default is false. -/
def domBuilder (fuel : Nat) (structureArray : List BItem) (parent : Option Nat)
    (emptyParent : Bool) (doc : Doc) : Option (Doc × Option Nat) :=
  let doc1 := match parent with
    | some p => if emptyParent then setInnerHTML doc p "" else doc
    | none => doc
  match build fuel structureArray ⟨doc1, parent, none, none, none⟩ with
  | none => none
  | some st => some (st.doc, st.mainV)

/-! ### Lemmas about updateAssoc and applyWrites -/

theorem lookupA_updateAssoc_self {α : Type} (l : List (String × α)) (n : String) (v : α) :
    lookupA (updateAssoc l n v) n = some v := by
  induction l with
  | nil => simp [updateAssoc, lookupA]
  | cons p t ih =>
    obtain ⟨m, w⟩ := p
    by_cases h : m = n
    · simp [updateAssoc, h, lookupA]
    · simp [updateAssoc, h, lookupA, ih]

theorem lookupA_updateAssoc_ne {α : Type} (l : List (String × α)) (m n : String) (v : α)
    (h : m ≠ n) : lookupA (updateAssoc l m v) n = lookupA l n := by
  induction l with
  | nil => simp [updateAssoc, lookupA, h]
  | cons p t ih =>
    obtain ⟨a, b⟩ := p
    by_cases ha : a = m
    · subst ha; simp [updateAssoc, lookupA, h]
    · simp [updateAssoc, ha, lookupA, ih]

theorem updateAssoc_updateAssoc_same {α : Type} (l : List (String × α)) (n : String)
    (v w : α) : updateAssoc (updateAssoc l n v) n w = updateAssoc l n w := by
  induction l with
  | nil => simp [updateAssoc]
  | cons p t ih =>
    obtain ⟨a, b⟩ := p
    by_cases ha : a = n
    · simp [updateAssoc, ha]
    · simp [updateAssoc, ha, ih]

theorem updateAssoc_comm_of_hasKey {α : Type} (l : List (String × α)) (m n : String)
    (v w : α) (hmn : m ≠ n) (hk : hasKey l n = true) :
    updateAssoc (updateAssoc l n v) m w = updateAssoc (updateAssoc l m w) n v := by
  induction l with
  | nil => simp [hasKey, lookupA] at hk
  | cons p t ih =>
    obtain ⟨a, b⟩ := p
    by_cases han : a = n
    · subst han
      simp [updateAssoc, Ne.symm hmn]
    · by_cases ham : a = m
      · subst ham
        simp [updateAssoc, han, hmn]
      · have hk' : hasKey t n = true := by
          simpa [hasKey, lookupA, han] using hk
        simp [updateAssoc, han, ham, ih hk']

theorem updateAssoc_self {α : Type} (l : List (String × α)) (n : String) (v : α)
    (h : lookupA l n = some v) : updateAssoc l n v = l := by
  induction l with
  | nil => simp [lookupA] at h
  | cons p t ih =>
    obtain ⟨a, b⟩ := p
    by_cases ha : a = n
    · subst ha
      simp [lookupA] at h
      simp [updateAssoc, h]
    · simp [lookupA, ha] at h
      simp [updateAssoc, ha, ih h]

theorem hasKey_updateAssoc {α : Type} (l : List (String × α)) (m n : String) (v : α)
    (h : hasKey l n = true) : hasKey (updateAssoc l m v) n = true := by
  by_cases hmn : m = n
  · subst hmn; simp [hasKey, lookupA_updateAssoc_self]
  · simpa [hasKey, lookupA_updateAssoc_ne l m n v hmn] using h

theorem updateAssoc_eq_setFirstVal {α : Type} (l : List (String × α)) (n : String)
    (v : α) (h : hasKey l n = true) : updateAssoc l n v = setFirstVal l n v := by
  induction l with
  | nil => simp [hasKey, lookupA] at h
  | cons p t ih =>
    obtain ⟨a, b⟩ := p
    by_cases ha : a = n
    · simp [updateAssoc, setFirstVal, ha]
    · have h' : hasKey t n = true := by simpa [hasKey, lookupA, ha] using h
      simp [updateAssoc, setFirstVal, ha, ih h']

theorem updateAssoc_setFirstVal_same {α : Type} (l : List (String × α)) (n : String)
    (v w : α) : updateAssoc (setFirstVal l n v) n w = updateAssoc l n w := by
  induction l with
  | nil => simp [setFirstVal]
  | cons p t ih =>
    obtain ⟨a, b⟩ := p
    by_cases ha : a = n
    · simp [updateAssoc, setFirstVal, ha]
    · simp [updateAssoc, setFirstVal, ha, ih]

theorem setFirstVal_updateAssoc_ne {α : Type} (l : List (String × α)) (m n : String)
    (v w : α) (hmn : m ≠ n) :
    updateAssoc (setFirstVal l n v) m w = setFirstVal (updateAssoc l m w) n v := by
  induction l with
  | nil => simp [setFirstVal, updateAssoc, hmn]
  | cons p t ih =>
    obtain ⟨a, b⟩ := p
    by_cases han : a = n
    · subst han
      simp [setFirstVal, updateAssoc, Ne.symm hmn]
    · by_cases ham : a = m
      · subst ham
        simp [setFirstVal, updateAssoc, han]
      · simp [setFirstVal, updateAssoc, han, ham, ih]

theorem applyWrites_nil (a : List (String × String)) : applyWrites [] a = a := rfl

theorem applyWrites_cons (q : String × String) (w : List (String × String))
    (a : List (String × String)) :
    applyWrites (q :: w) a = applyWrites w (updateAssoc a q.1 q.2) := rfl

theorem applyWrites_append (w1 w2 : List (String × String))
    (a : List (String × String)) :
    applyWrites (w1 ++ w2) a = applyWrites w2 (applyWrites w1 a) := by
  simp [applyWrites, List.foldl_append]

theorem lookupA_applyWrites_not_written (w : List (String × String))
    (a : List (String × String)) (n : String) (h : ∀ q ∈ w, q.1 ≠ n) :
    lookupA (applyWrites w a) n = lookupA a n := by
  induction w generalizing a with
  | nil => rfl
  | cons q w' ih =>
    rw [applyWrites_cons, ih _ (fun r hr => h r (List.mem_cons_of_mem q hr)),
      lookupA_updateAssoc_ne _ _ _ _ (h q (List.mem_cons_self q w'))]

theorem hasKey_applyWrites (w : List (String × String)) (a : List (String × String))
    (n : String) (h : hasKey a n = true) : hasKey (applyWrites w a) n = true := by
  induction w generalizing a with
  | nil => exact h
  | cons q w' ih => exact ih _ (hasKey_updateAssoc a q.1 n q.2 h)

theorem applyWrites_setFirstVal_absorb (w : List (String × String))
    (a : List (String × String)) (n : String) (v : String)
    (h : ∃ q ∈ w, q.1 = n) : applyWrites w (setFirstVal a n v) = applyWrites w a := by
  induction w generalizing a with
  | nil => obtain ⟨q, hq, _⟩ := h; simp at hq
  | cons q w' ih =>
    by_cases hq : q.1 = n
    · rw [applyWrites_cons, applyWrites_cons, hq, updateAssoc_setFirstVal_same]
    · obtain ⟨r, hr, hrn⟩ := h
      rcases List.mem_cons.mp hr with h1 | h2
      · exact absurd (h1 ▸ hrn) hq
      · rw [applyWrites_cons, applyWrites_cons,
          setFirstVal_updateAssoc_ne a q.1 n v q.2 hq, ih _ ⟨r, h2, hrn⟩]

theorem applyWrites_absorb (w : List (String × String)) (c : List (String × String))
    (n : String) (v : String) (h : lookupA c n = some v) :
    applyWrites w (updateAssoc (applyWrites w c) n v) = applyWrites w (applyWrites w c) := by
  induction w generalizing c n v with
  | nil =>
    simp only [applyWrites_nil]
    rw [updateAssoc_self c n v h]
  | cons q w' ih =>
    obtain ⟨m, u⟩ := q
    by_cases hmn : m = n
    · subst hmn
      simp only [applyWrites_cons]
      rw [updateAssoc_updateAssoc_same]
    · simp only [applyWrites_cons]
      have hkc : hasKey c n = true := by simp [hasKey, h]
      have hkd : hasKey (updateAssoc c m u) n = true := hasKey_updateAssoc c m n u hkc
      have hkX : hasKey (applyWrites w' (updateAssoc c m u)) n = true :=
        hasKey_applyWrites w' _ n hkd
      rw [updateAssoc_comm_of_hasKey _ m n v u hmn hkX]
      by_cases hw : ∃ q ∈ w', q.1 = n
      · have hkZ : hasKey (updateAssoc (applyWrites w' (updateAssoc c m u)) m u) n = true :=
          hasKey_updateAssoc _ m n u hkX
        rw [updateAssoc_eq_setFirstVal _ n v hkZ,
          applyWrites_setFirstVal_absorb w' _ n v hw]
      · push_neg at hw
        have hlZ : lookupA (updateAssoc (applyWrites w' (updateAssoc c m u)) m u) n = some v := by
          rw [lookupA_updateAssoc_ne _ m n u hmn,
            lookupA_applyWrites_not_written w' _ n hw,
            lookupA_updateAssoc_ne _ m n u hmn]
          exact h
        rw [updateAssoc_self _ n v hlZ]

theorem applyWrites_idem (w : List (String × String)) (a : List (String × String)) :
    applyWrites w (applyWrites w a) = applyWrites w a := by
  induction w generalizing a with
  | nil => rfl
  | cons q w' ih =>
    obtain ⟨n, v⟩ := q
    simp only [applyWrites_cons]
    have h : lookupA (updateAssoc a n v) n = some v := lookupA_updateAssoc_self a n v
    calc applyWrites w' (updateAssoc (applyWrites w' (updateAssoc a n v)) n v)
        = applyWrites w' (applyWrites w' (updateAssoc a n v)) :=
          applyWrites_absorb w' (updateAssoc a n v) n v h
      _ = applyWrites w' (updateAssoc a n v) := ih _

/-! ### Characterization of domBuilderBasicSetup as a write sequence -/

theorem foldl_setAttr_eq (l : List (String × AVal)) (e : NodeData) :
    l.foldl (fun e p => if p.2.isNullish then e else e.setAttr p.1 (jsString p.2)) e
      = { e with attrs := applyWrites (attrWrites l) e.attrs } := by
  induction l generalizing e with
  | nil => simp [attrWrites, applyWrites]
  | cons p t ih =>
    by_cases h : p.2.isNullish = true
    · simp only [List.foldl_cons, if_pos h]
      rw [ih]
      simp [attrWrites, List.filterMap_cons, h]
    · simp only [List.foldl_cons, if_neg h]
      rw [ih]
      simp [attrWrites, List.filterMap_cons, h, applyWrites_cons, NodeData.setAttr]

theorem domBuilderBasicSetup_fst (e : NodeData) (it : SItem) :
    (domBuilderBasicSetup e it).1 = { e with attrs := applyWrites (setupWrites it) e.attrs } := by
  simp only [domBuilderBasicSetup, setupWrites, normItem, foldl_setAttr_eq,
    applyWrites_append]
  cases hcn : (aliasFix it).className with
  | none =>
    cases hid : (aliasFix it).id with
    | none => simp [applyWrites]
    | some s =>
      by_cases hs : s = ""
      · simp [hs, applyWrites]
      · simp [hs, applyWrites, NodeData.setAttr]
  | some c =>
    by_cases ht : truthyClass c
    · cases hid : (aliasFix it).id with
      | none => simp [ht, applyWrites, NodeData.setAttr]
      | some s =>
        by_cases hs : s = ""
        · simp [ht, hs, applyWrites, NodeData.setAttr]
        · simp [ht, hs, applyWrites, NodeData.setAttr]
    · cases hid : (aliasFix it).id with
      | none => simp [ht, applyWrites]
      | some s =>
        by_cases hs : s = ""
        · simp [ht, hs, applyWrites]
        · simp [ht, hs, applyWrites, NodeData.setAttr]

theorem domBuilderBasicSetup_snd (e : NodeData) (it : SItem) :
    (domBuilderBasicSetup e it).2 = normItem it := rfl

theorem normAttrs_idem (a : Option AttrsVal) : normAttrs (normAttrs a) = normAttrs a := by
  cases a with
  | none => rfl
  | some v => cases v <;> rfl

theorem aliasFix_cond_false (it : SItem) :
    (truthyClassO (aliasFix it).class_ && !truthyClassO (aliasFix it).className) = false := by
  unfold aliasFix
  cases hx : (truthyClassO it.class_ && !truthyClassO it.className) with
  | false => simp [hx]
  | true => simp [hx]

theorem aliasFix_normItem (it : SItem) : aliasFix (normItem it) = normItem it := by
  have h := aliasFix_cond_false it
  unfold aliasFix
  have h2 : (normItem it).class_ = (aliasFix it).class_ := rfl
  have h3 : (normItem it).className = (aliasFix it).className := rfl
  rw [h2, h3, h]
  simp

theorem normItem_idem (it : SItem) : normItem (normItem it) = normItem it := by
  show { aliasFix (normItem it) with attrs := normAttrs (aliasFix (normItem it)).attrs }
    = normItem it
  rw [aliasFix_normItem]
  have h : normAttrs (normItem it).attrs = (normItem it).attrs := by
    show normAttrs (normAttrs (aliasFix it).attrs) = normAttrs (aliasFix it).attrs
    exact normAttrs_idem _
  rw [h]

theorem setupWrites_normItem (it : SItem) : setupWrites (normItem it) = setupWrites it := by
  unfold setupWrites
  rw [normItem_idem]

theorem aliasFix_id (it : SItem) : (aliasFix it).id = it.id := by
  unfold aliasFix; split <;> rfl

theorem aliasFix_class (it : SItem) : (aliasFix it).class_ = it.class_ := by
  unfold aliasFix; split <;> rfl

theorem aliasFix_attrs (it : SItem) : (aliasFix it).attrs = it.attrs := by
  unfold aliasFix; split <;> rfl

theorem aliasFix_of_class_falsy (it : SItem) (h : truthyClassO it.class_ = false) :
    aliasFix it = it := by
  unfold aliasFix; rw [h]; simp

theorem aliasFix_of_className_truthy (it : SItem) (h : truthyClassO it.className = true) :
    aliasFix it = it := by
  unfold aliasFix; rw [h]; simp

/-- C9: decorate is idempotent: applying domBuilderBasicSetup a second time,
to the node and the (in-place mutated) record produced by the first call,
changes neither the node's attribute/class/id state nor the record. -/
theorem c9_decorate_idempotent (e : NodeData) (it : SItem) :
    domBuilderBasicSetup (domBuilderBasicSetup e it).1 (domBuilderBasicSetup e it).2
      = domBuilderBasicSetup e it := by
  refine Prod.ext ?_ ?_
  · rw [domBuilderBasicSetup_snd,
      domBuilderBasicSetup_fst ((domBuilderBasicSetup e it).1) (normItem it),
      domBuilderBasicSetup_fst e it, setupWrites_normItem]
    simp [applyWrites_idem]
  · show normItem (normItem it) = (domBuilderBasicSetup e it).2
    rw [normItem_idem, domBuilderBasicSetup_snd]

/-- C6 (amended): decorate is not frame-pure on its record argument: it
returns the record with className filled in from class (when class is truthy
and className falsy) and with attrs rewritten to pair-sequence form, while
class and id are preserved; the original shape of attrs is not kept. -/
theorem c6_frame_amended (e : NodeData) (it : SItem) :
    (domBuilderBasicSetup e it).2 =
      { class_ := it.class_
      , className := if truthyClassO it.class_ && !truthyClassO it.className
          then it.class_ else it.className
      , attrs := normAttrs it.attrs
      , id := it.id } := by
  rw [domBuilderBasicSetup_snd]
  unfold normItem aliasFix
  split
  · next h => simp [h]
  · next h =>
    have hb : (truthyClassO it.class_ && !truthyClassO it.className) = false := by
      cases hx : (truthyClassO it.class_ && !truthyClassO it.className) with
      | false => rfl
      | true => exact absurd hx h
    simp [hb]

/-- C6 (counterexample): the claim says the record passed to decorate is
unchanged by the call; for the record with class "c" and a single-pair attrs
the call fills className and rewraps attrs, so the record differs. -/
theorem c6_counterexample :
    (domBuilderBasicSetup ⟨"div", [], [], ""⟩
        ⟨some (.str "c"), none, some (.single "a" (.str "1")), none⟩).2
      ≠ ⟨some (.str "c"), none, some (.single "a" (.str "1")), none⟩ := by decide

/-- C8: object-level id and className always win over equivalent keys
supplied through attrs, because their writes happen after the attribute
writes; in particular building the record with id "x" and attrs id "y"
yields a node whose final id attribute is "x". -/
theorem c8_id_precedence :
    (∀ (e : NodeData) (it : SItem) (s : String), it.id = some s → s ≠ "" →
      lookupA ((domBuilderBasicSetup e it).1).attrs "id" = some s)
    ∧ (∀ (e : NodeData) (it : SItem) (c : ClassF), it.className = some c →
        truthyClass c = true →
        lookupA ((domBuilderBasicSetup e it).1).attrs "class" = some (classString c))
    ∧ domBuilder 9 [.recItem none (some "x") none none
        (some (.mapping [("id", AVal.str "y")])) none none none none] none false ⟨[]⟩
      = some (⟨[⟨"div", [("id", "x")], [], ""⟩]⟩, some 0) := by
  refine ⟨?_, ?_, by decide⟩
  · intro e it s hid hs
    rw [domBuilderBasicSetup_fst]
    show lookupA (applyWrites (setupWrites it) e.attrs) "id" = some s
    unfold setupWrites
    have hidn : (normItem it).id = some s := by
      show (aliasFix it).id = some s
      rw [aliasFix_id, hid]
    rw [hidn]
    dsimp only
    rw [if_pos hs, applyWrites_append, applyWrites_append]
    show lookupA (updateAssoc _ "id" s) "id" = some s
    exact lookupA_updateAssoc_self _ "id" s
  · intro e it c hcn ht
    rw [domBuilderBasicSetup_fst]
    show lookupA (applyWrites (setupWrites it) e.attrs) "class" = some (classString c)
    unfold setupWrites
    have hfix : aliasFix it = it :=
      aliasFix_of_className_truthy it (by rw [hcn]; exact ht)
    have hcn2 : (normItem it).className = some c := by
      show (aliasFix it).className = some c
      rw [hfix, hcn]
    rw [hcn2]
    dsimp only
    rw [if_pos ht, applyWrites_append, applyWrites_append]
    cases hid : (normItem it).id with
    | none =>
      show lookupA (updateAssoc _ "class" (classString c)) "class" = some (classString c)
      exact lookupA_updateAssoc_self _ "class" (classString c)
    | some s =>
      dsimp only
      by_cases hs : s = ""
      · rw [if_neg (fun h => h hs)]
        show lookupA (updateAssoc _ "class" (classString c)) "class" = some (classString c)
        exact lookupA_updateAssoc_self _ "class" (classString c)
      · rw [if_pos hs]
        show lookupA (updateAssoc (updateAssoc _ "class" (classString c)) "id" s) "class"
          = some (classString c)
        rw [lookupA_updateAssoc_ne _ "id" "class" s (by decide)]
        exact lookupA_updateAssoc_self _ "class" (classString c)

/-- C8 (witness): the general precedence statement at the concrete record of
the claim, id "x" with attrs id "y". -/
theorem c8_witness :
    lookupA ((domBuilderBasicSetup ⟨"div", [], [], ""⟩
        ⟨none, none, some (.mapping [("id", AVal.str "y")]), some "x"⟩).1).attrs "id"
      = some "x" :=
  c8_id_precedence.1 ⟨"div", [], [], ""⟩
    ⟨none, none, some (.mapping [("id", AVal.str "y")]), some "x"⟩ "x" rfl (by decide)

/-- C10: when both className and class are absent or falsy, the
className-overwrite step of decorate does not run, so the node's class
attribute after the call is exactly whatever the attribute-application step
left (the id step touches only the id attribute); in particular a class
attribute supplied through attrs with a non-null value is set and survives
the call. -/
theorem c10_class_untouched :
    (∀ (e : NodeData) (it : SItem),
        truthyClassO it.className = false → truthyClassO it.class_ = false →
        lookupA ((domBuilderBasicSetup e it).1).attrs "class"
          = lookupA (applyWrites (attrWrites (attrPairs (normAttrs it.attrs))) e.attrs) "class")
    ∧ lookupA ((domBuilderBasicSetup ⟨"div", [], [], ""⟩
        ⟨none, none, some (.mapping [("class", AVal.str "kept")]), some "anId"⟩).1).attrs "class"
      = some "kept" := by
  refine ⟨?_, by decide⟩
  intro e it hcn hcl
  rw [domBuilderBasicSetup_fst]
  show lookupA (applyWrites (setupWrites it) e.attrs) "class"
    = lookupA (applyWrites (attrWrites (attrPairs (normAttrs it.attrs))) e.attrs) "class"
  unfold setupWrites
  have hfix : aliasFix it = it := aliasFix_of_class_falsy it hcl
  have h1 : (normItem it).attrs = normAttrs it.attrs := by
    show normAttrs (aliasFix it).attrs = normAttrs it.attrs
    rw [hfix]
  have h2 : (normItem it).className = it.className := by
    show (aliasFix it).className = it.className
    rw [hfix]
  have h3 : (normItem it).id = it.id := by
    show (aliasFix it).id = it.id
    rw [hfix]
  rw [h1, h2, h3]
  cases hc : it.className with
  | some c =>
    rw [hc] at hcn
    simp only [truthyClassO] at hcn
    dsimp only
    rw [if_neg (by simp [hcn]), List.append_nil, applyWrites_append]
    cases hid : it.id with
    | none => rfl
    | some s =>
      dsimp only
      by_cases hs : s = ""
      · rw [if_neg (fun h => h hs)]
        rfl
      · rw [if_pos hs]
        show lookupA (updateAssoc _ "id" s) "class" = _
        exact lookupA_updateAssoc_ne _ "id" "class" s (by decide)
  | none =>
    dsimp only
    rw [List.append_nil, applyWrites_append]
    cases hid : it.id with
    | none => rfl
    | some s =>
      dsimp only
      by_cases hs : s = ""
      · rw [if_neg (fun h => h hs)]
        rfl
      · rw [if_pos hs]
        show lookupA (updateAssoc _ "id" s) "class" = _
        exact lookupA_updateAssoc_ne _ "id" "class" s (by decide)

/-- C10 (witness): the general statement at the concrete record whose attrs
supply a class value while className and class are absent. -/
theorem c10_witness :
    lookupA ((domBuilderBasicSetup ⟨"div", [], [], ""⟩
        ⟨none, none, some (.mapping [("class", AVal.str "kept")]), some "anId"⟩).1).attrs "class"
      = lookupA (applyWrites (attrWrites (attrPairs (normAttrs
          (some (.mapping [("class", AVal.str "kept")])))))
          (⟨"div", [], [], ""⟩ : NodeData).attrs) "class" :=
  c10_class_untouched.1 ⟨"div", [], [], ""⟩
    ⟨none, none, some (.mapping [("class", AVal.str "kept")]), some "anId"⟩ rfl rfl

/-- C5 (counterexample): the claim says parse returns a non-null fragment
for every input string; the input consisting of a single hash character
fails the whole anchored pattern (the optional id group needs a word
character after the hash, and no other segment can consume the hash), so
parseDomString returns none. -/
theorem c5_counterexample : parseDomString "#" = none := by decide

/-- C5 (amended): the null branch of the parser is reachable: inputs
containing a character no segment can consume (a lone hash, or a character
like an at sign) fail the anchored match and yield null; for inputs the
pattern does match, absent segments degrade to the defaults (tag div, no
id, no classes, empty attrs, no content). -/
theorem c5_parser_amended :
    parseDomString "#" = none
    ∧ parseDomString "@" = none
    ∧ parseDomString "" = some ⟨"div", none, "", [], none⟩
    ∧ parseDomString "   " = some ⟨"div", none, "", [], none⟩ := by decide

theorem splitOnP_ne_nil (p : Char → Bool) (l : List Char) : splitOnP p l ≠ [] := by
  cases l with
  | nil => simp [splitOnP]
  | cons c t =>
    by_cases h : p c = true
    · simp [splitOnP, h]
    · simp only [splitOnP, if_neg h]
      cases hs : splitOnP p t <;> simp

theorem takeWhile_eq_self_of_not_any (p : Char → Bool) (l : List Char)
    (h : l.any p = false) : l.takeWhile (fun c => !p c) = l := by
  induction l with
  | nil => rfl
  | cons c t ih =>
    simp only [List.any_cons, Bool.or_eq_false_iff] at h
    simp [List.takeWhile_cons, h.1, ih h.2]

theorem splitOnP_of_not_any (p : Char → Bool) (l : List Char) (h : l.any p = false) :
    splitOnP p l = [l] := by
  induction l with
  | nil => rfl
  | cons c t ih =>
    simp only [List.any_cons, Bool.or_eq_false_iff] at h
    simp [splitOnP, h.1, ih h.2]

theorem splitOnP_of_any (p : Char → Bool) (l : List Char) (h : l.any p = true) :
    splitOnP p l = l.takeWhile (fun c => !p c)
      :: splitOnP p ((l.dropWhile (fun c => !p c)).drop 1) := by
  induction l with
  | nil => simp at h
  | cons c t ih =>
    by_cases hc : p c = true
    · simp [splitOnP, hc, List.takeWhile_cons, List.dropWhile_cons]
    · have hcf : p c = false := by simpa using hc
      have ht : t.any p = true := by simpa [List.any_cons, hcf] using h
      simp [splitOnP, hcf, List.takeWhile_cons, List.dropWhile_cons, ih ht]

/-- C7 (amended): the attribute block is split on commas and each piece with
a colon or equals sign is split at every separator with only the first two
parts kept (the limit-2 split), so the name is the trimmed text before the
first separator and the value is the trimmed text between the first
separator and the second separator or end of the piece: a piece a:b:c
yields name a with value b, the text after the second separator being
discarded; a piece with no separator yields the value true. -/
theorem c7_attr_split_amended :
    (∀ (acc : List (String × PAttrVal)) (piece : List Char), piece.any isPairSep = true →
      addAttrPair acc piece
        = updateAssoc acc (strOf (jsTrim (piece.takeWhile (fun c => !isPairSep c))))
            (PAttrVal.str (strOf (jsTrim
              (((piece.dropWhile (fun c => !isPairSep c)).drop 1).takeWhile
                (fun c => !isPairSep c))))))
    ∧ parseDomString "div(a:b:c)" = some ⟨"div", none, "", [("a", PAttrVal.str "b")], none⟩
    ∧ parseDomString "div(x = 1 , y)"
      = some ⟨"div", none, "", [("x", PAttrVal.str "1"), ("y", PAttrVal.trueV)], none⟩ := by
  refine ⟨?_, by decide, by decide⟩
  intro acc piece hp
  have hne : piece ≠ [] := by
    intro h
    rw [h] at hp
    simp at hp
  unfold addAttrPair
  rw [if_neg hne, if_pos hp, splitOnP_of_any isPairSep piece hp]
  cases hr : ((piece.dropWhile (fun c => !isPairSep c)).drop 1).any isPairSep with
  | true => rw [splitOnP_of_any isPairSep _ hr]
  | false =>
    rw [splitOnP_of_not_any isPairSep _ hr,
      takeWhile_eq_self_of_not_any isPairSep _ hr]

/-- C7 (counterexample): the claim says the value of a piece a:b:c is the
entire remainder b:c after the first separator; the source's limit-2 split
discards everything from the second separator on, so the parsed value of the
attribute a in div(a:b:c) is b, not b:c. -/
theorem c7_counterexample :
    (parseDomString "div(a:b:c)").map (fun r => lookupA r.attrs "a")
      = some (some (PAttrVal.str "b"))
    ∧ (parseDomString "div(a:b:c)").map (fun r => lookupA r.attrs "a")
      ≠ some (some (PAttrVal.str "b:c")) := by decide

/-- C7 (witness): the general split statement at the concrete piece a:b:c. -/
theorem c7_witness :
    addAttrPair [] ("a:b:c".toList)
      = updateAssoc [] (strOf (jsTrim (("a:b:c".toList).takeWhile (fun c => !isPairSep c))))
          (PAttrVal.str (strOf (jsTrim
            (((("a:b:c".toList).dropWhile (fun c => !isPairSep c)).drop 1).takeWhile
              (fun c => !isPairSep c))))) :=
  c7_attr_split_amended.1 [] ("a:b:c".toList) (by decide)

/-- C1 (counterexample): the claim says a non-null content value, including
the number 0, is converted to its string form and assigned as raw content;
the content block of the source runs only when item.content is truthy, so
building an item with content 0 leaves the node's raw content empty, not
"0". -/
theorem c1_counterexample :
    domBuilder 9 [.recItem (some (.str "div")) none none none none (some (.num 0))
        none none none] none false ⟨[]⟩
      = some (⟨[⟨"div", [], [], ""⟩]⟩, some 0)
    ∧ ("" : String) ≠ "0" := by decide

/-- C1 (amended): the content step runs only when content is truthy (null,
0 and the empty string are skipped and the raw content is untouched).  A
producer function is invoked with no arguments and only its result reaches
the host-node test: a node result is appended, any other result is assigned
through the raw-content coercion.  A truthy non-function value always goes
through string conversion first, so even a host node supplied directly is
stringified and assigned as raw content rather than appended. -/
theorem c1_content_resolution_amended :
    (∀ (st : BuildSt) (cf : ContentF), truthyContent cf = false →
        contentStep st (some cf) = some st)
    ∧ (∀ (st : BuildSt) (el n : Nat), st.elV = some el →
        contentStep st (some (.fnC (.nodeRef n)))
          = some { st with doc := appendChild st.doc el n })
    ∧ (∀ (st : BuildSt) (el n : Nat), st.elV = some el →
        contentStep st (some (.nodeRef n))
          = some { st with doc := setInnerHTML st.doc el "[object HTMLElement]" })
    ∧ (∀ (st : BuildSt) (el : Nat) (s : String), st.elV = some el → s ≠ "" →
        contentStep st (some (.str s)) = some { st with doc := setInnerHTML st.doc el s })
    ∧ (∀ (st : BuildSt) (el : Nat) (n : Int), st.elV = some el → n ≠ 0 →
        contentStep st (some (.num n))
          = some { st with doc := setInnerHTML st.doc el (toString n) })
    ∧ (∀ (st : BuildSt) (el : Nat) (r : ContentRes), st.elV = some el →
        (∀ m, r ≠ .nodeRef m) →
        contentStep st (some (.fnC r))
          = some { st with doc := setInnerHTML st.doc el (ihString r) })
    ∧ domBuilder 9 [.recItem (some (.str "div")) none none none none
        (some (.fnC (.nodeRef 0))) none none none] none false ⟨[⟨"em", [], [], ""⟩]⟩
      = some (⟨[⟨"em", [], [], ""⟩, ⟨"div", [], [0], ""⟩]⟩, some 1) := by
  refine ⟨?_, ?_, ?_, ?_, ?_, ?_, by decide⟩
  · intro st cf h
    unfold contentStep
    dsimp only
    rw [if_neg (by simp [h])]
  · intro st el n h
    simp [contentStep, truthyContent, h]
  · intro st el n h
    simp [contentStep, truthyContent, h, ihString]
  · intro st el s h hs
    simp [contentStep, truthyContent, hs, h, ihString]
  · intro st el n h hn
    simp [contentStep, truthyContent, hn, h, ihString]
  · intro st el r h hr
    cases r with
    | nodeRef m => exact absurd rfl (hr m)
    | str s => simp [contentStep, truthyContent, h, ihString]
    | num n => simp [contentStep, truthyContent, h, ihString]
    | nullV => simp [contentStep, truthyContent, h, ihString]
    | undef => simp [contentStep, truthyContent, h, ihString]

/-- C1 (witness): the producer-node conjunct applied at a concrete state. -/
theorem c1_witness :
    contentStep ⟨⟨[⟨"em", [], [], ""⟩, ⟨"div", [], [], ""⟩]⟩, none, none, some 1, none⟩
        (some (.fnC (.nodeRef 0)))
      = some ⟨appendChild ⟨[⟨"em", [], [], ""⟩, ⟨"div", [], [], ""⟩]⟩ 1 0,
          none, none, some 1, none⟩ :=
  c1_content_resolution_amended.2.1
    ⟨⟨[⟨"em", [], [], ""⟩, ⟨"div", [], [], ""⟩]⟩, none, none, some 1, none⟩ 1 0 rfl

/-- C2 (counterexample): the claim says an empty-string item is skipped
entirely; in the source an empty string is not parsed (line 88 excludes
it) yet passes the item != null gate of line 94, so it creates a default
div, appends it to the parent, and becomes the returned first element. -/
theorem c2_counterexample :
    domBuilder 9 [.strItem ""] (some 0) false ⟨[⟨"body", [], [], ""⟩]⟩
      = some (⟨[⟨"body", [], [1], ""⟩, ⟨"div", [], [], ""⟩]⟩, some 1) := by decide

/-- C2 (amended): a null/undefined item is skipped entirely (the loop state
is unchanged), and a non-empty string whose parse fails is likewise skipped;
an empty-string item, however, is not skipped: it behaves as an all-absent
record and produces a default div element, which is appended and can become
the returned first element. -/
theorem c2_skip_amended :
    (∀ (fuel : Nat) (rest : List BItem) (st : BuildSt),
        build fuel (BItem.nullItem :: rest) st = build fuel rest st)
    ∧ (∀ (fuel : Nat) (rest : List BItem) (st : BuildSt) (s : String), s ≠ "" →
        parseDomString s = none →
        build fuel (BItem.strItem s :: rest) st = build fuel rest st)
    ∧ domBuilder 9 [.strItem ""] none false ⟨[]⟩
      = some (⟨[⟨"div", [], [], ""⟩]⟩, some 0) := by
  refine ⟨?_, ?_, by decide⟩
  · intro fuel rest st
    cases fuel with
    | zero => rfl
    | succ f => simp [build, processOne, resolveItem]
  · intro fuel rest st s hs hparse
    cases fuel with
    | zero => rfl
    | succ f => simp [build, processOne, resolveItem, hs, hparse]

theorem chainFold_gpV (f : Fields) (segs : List String) :
    ∀ (st st' : BuildSt), chainFold f segs st = some st' → st'.gpV = st.gpV := by
  induction segs with
  | nil =>
    intro st st' h
    simp [chainFold] at h
    rw [← h]
  | cons seg rest ih =>
    intro st st' h
    rw [chainFold] at h
    cases hp : parseDomString seg with
    | none => rw [hp] at h; exact absurd h (by simp)
    | some p =>
      rw [hp] at h
      dsimp only at h
      by_cases hl : rest = []
      · rw [if_pos hl] at h
        have h5 := ih _ _ h
        exact h5.trans rfl
      · rw [if_neg hl] at h
        cases hpv : st.parentV with
        | some pid =>
          rw [hpv] at h
          have h5 := ih _ _ h
          exact h5.trans rfl
        | none =>
          rw [hpv] at h
          have h5 := ih _ _ h
          exact h5.trans rfl

theorem contentStep_vars (st st' : BuildSt) (c : Option ContentF)
    (h : contentStep st c = some st') :
    st'.parentV = st.parentV ∧ st'.mainV = st.mainV ∧ st'.elV = st.elV ∧
    st'.gpV = st.gpV := by
  unfold contentStep at h
  cases c with
  | none =>
    dsimp only at h
    injection h with h2
    subst h2
    exact ⟨rfl, rfl, rfl, rfl⟩
  | some cf =>
    dsimp only at h
    by_cases ht : truthyContent cf = true
    · rw [if_pos ht] at h
      cases hel : st.elV with
      | none =>
        rw [hel] at h
        dsimp only at h
        exact absurd h (by simp)
      | some el =>
        rw [hel] at h
        cases cf with
        | fnC r =>
          cases r <;>
            (dsimp only at h
             injection h with h2
             subst h2
             exact ⟨rfl, rfl, rfl, rfl⟩)
        | str s =>
          dsimp only at h
          injection h with h2
          subst h2
          exact ⟨rfl, rfl, rfl, rfl⟩
        | num n =>
          dsimp only at h
          injection h with h2
          subst h2
          exact ⟨rfl, rfl, rfl, rfl⟩
        | nodeRef i =>
          dsimp only at h
          injection h with h2
          subst h2
          exact ⟨rfl, rfl, rfl, rfl⟩
    · rw [if_neg ht] at h
      injection h with h2
      subst h2
      exact ⟨rfl, rfl, rfl, rfl⟩

theorem corePre_vars (f : Fields) (st st1 : BuildSt) (h : corePre f st = some st1) :
    (st1.parentV = st.parentV ∧ st1.gpV = st.gpV) ∨ st1.gpV = st.parentV := by
  unfold corePre at h
  cases hf : f.tag with
  | none =>
    rw [hf] at h
    dsimp only at h
    obtain ⟨h1, _, _, h4⟩ := contentStep_vars _ _ _ h
    exact Or.inl ⟨h1, h4⟩
  | some tf =>
    cases tf with
    | str s =>
      rw [hf] at h
      dsimp only at h
      obtain ⟨h1, _, _, h4⟩ := contentStep_vars _ _ _ h
      exact Or.inl ⟨h1, h4⟩
    | arr segs =>
      rw [hf] at h
      dsimp only at h
      cases hcf : chainFold f segs { st with gpV := st.parentV } with
      | none => rw [hcf] at h; exact absurd h (by simp)
      | some stc =>
        rw [hcf] at h
        dsimp only at h
        have hg : stc.gpV = st.parentV := chainFold_gpV f segs _ _ hcf
        obtain ⟨_, _, _, h4⟩ := contentStep_vars _ _ _ h
        exact Or.inr (h4.trans hg)

theorem restore_vars (st3 : BuildSt) :
    ((if st3.gpV.isSome then { st3 with parentV := st3.gpV } else st3).gpV = st3.gpV)
    ∧ ((if st3.gpV.isSome then { st3 with parentV := st3.gpV } else st3).parentV
        = (if st3.gpV.isSome then st3.gpV else st3.parentV)) := by
  by_cases hg : st3.gpV.isSome = true <;> simp [hg]

theorem corePost_vars (st2 st' : BuildSt) (h : corePost st2 = some st') :
    st'.gpV = st2.gpV
    ∧ st'.parentV = (if st2.gpV.isSome then st2.gpV else st2.parentV) := by
  unfold corePost at h
  by_cases hm : st2.mainV = none
  · rw [if_pos hm] at h
    dsimp only at h
    cases hpv : st2.parentV with
    | none =>
      rw [hpv] at h
      dsimp only [Option.map] at h
      injection h with h2
      subst h2
      exact restore_vars ⟨st2.doc, none, st2.elV, st2.elV, st2.gpV⟩
    | some p =>
      rw [hpv] at h
      cases hel : st2.elV with
      | none => rw [hel] at h; exact absurd h (by simp)
      | some e =>
        rw [hel] at h
        dsimp only [Option.map] at h
        injection h with h2
        subst h2
        exact restore_vars ⟨appendChild st2.doc p e, some p, some e, some e, st2.gpV⟩
  · rw [if_neg hm] at h
    dsimp only at h
    cases hpv : st2.parentV with
    | none =>
      rw [hpv] at h
      dsimp only [Option.map] at h
      injection h with h2
      subst h2
      have hr := restore_vars st2
      rw [hpv] at hr
      exact hr
    | some p =>
      rw [hpv] at h
      cases hel : st2.elV with
      | none => rw [hel] at h; exact absurd h (by simp)
      | some e =>
        rw [hel] at h
        dsimp only [Option.map] at h
        injection h with h2
        subst h2
        exact restore_vars ⟨appendChild st2.doc p e, some p, st2.mainV, some e, st2.gpV⟩

theorem postRestoreInvariant (st st1 st2 st' : BuildSt) (P : Nat)
    (hp : st.parentV = some P) (hg : st.gpV = none ∨ st.gpV = some P)
    (hpre : (st1.parentV = st.parentV ∧ st1.gpV = st.gpV) ∨ st1.gpV = st.parentV)
    (h2p : st2.parentV = st1.parentV) (h2g : st2.gpV = st1.gpV)
    (hcp : st'.gpV = st2.gpV
      ∧ st'.parentV = (if st2.gpV.isSome then st2.gpV else st2.parentV)) :
    st'.parentV = some P ∧ (st'.gpV = none ∨ st'.gpV = some P) := by
  obtain ⟨hg', hpv'⟩ := hcp
  rcases hpre with ⟨e1, e2⟩ | e
  · rcases hg with hnone | hsome
    · rw [h2g, e2, hnone] at hg' hpv'
      simp only [Option.isSome_none, Bool.false_eq_true, if_false] at hpv'
      rw [h2p, e1, hp] at hpv'
      exact ⟨hpv', Or.inl hg'⟩
    · rw [h2g, e2, hsome] at hg' hpv'
      simp only [Option.isSome_some, if_true] at hpv'
      exact ⟨hpv', Or.inr hg'⟩
  · rw [h2g, e, hp] at hg' hpv'
    simp only [Option.isSome_some, if_true] at hpv'
    exact ⟨hpv', Or.inr hg'⟩

/-- C3 (amended): when the current parent is present (truthy), the parent
pointer is back on that parent after every item, chain or not: a chain item
stores the parent in grand_parent and the truthy grand_parent is restored
after the item, so every subsequent sibling in the same call is appended to
the original parent.  (When build is called without a parent, grand_parent
stays falsy, the restore is skipped, and siblings of a chain item attach to
the last intermediate chain node instead, as the counterexample shows.) -/
theorem c3_restore_amended :
    ∀ (recurse : List BItem → BuildSt → Option BuildSt) (item : BItem)
      (st st' : BuildSt) (P : Nat),
      st.parentV = some P → (st.gpV = none ∨ st.gpV = some P) →
      processOne recurse item st = some st' →
      st'.parentV = some P ∧ (st'.gpV = none ∨ st'.gpV = some P) := by
  intro recurse item st st' P hp hg h
  unfold processOne at h
  cases hri : resolveItem item with
  | none =>
    rw [hri] at h
    dsimp only at h
    injection h with h2
    subst h2
    exact ⟨hp, hg⟩
  | some f =>
    rw [hri] at h
    dsimp only at h
    by_cases hc : f.condition.getD true = false
    · rw [if_pos hc] at h
      injection h with h2
      subst h2
      exact ⟨hp, hg⟩
    · rw [if_neg hc] at h
      cases hpre : corePre f st with
      | none => rw [hpre] at h; exact absurd h (by simp)
      | some st1 =>
        rw [hpre] at h
        dsimp only at h
        cases hch : f.children with
        | none =>
          rw [hch] at h
          dsimp only at h
          exact postRestoreInvariant st st1 st1 st' P hp hg
            (corePre_vars f st st1 hpre) rfl rfl (corePost_vars st1 st' h)
        | some cs =>
          rw [hch] at h
          dsimp only at h
          cases hrec : recurse cs ⟨st1.doc, st1.elV, none, none, none⟩ with
          | none => rw [hrec] at h; exact absurd h (by simp)
          | some stc =>
            rw [hrec] at h
            dsimp only at h
            exact postRestoreInvariant st st1 { st1 with doc := stc.doc } st' P hp hg
              (corePre_vars f st st1 hpre) rfl rfl
              (corePost_vars { st1 with doc := stc.doc } st' h)

/-- C3 (counterexample): the claim covers calls with the parent argument
absent; in that case grand_parent is set to the falsy undefined parent, the
restore of lines 175 to 177 is skipped, and the sibling item "p" is
appended to the synthetic intermediate chain node (the div keeps children
[1, 2]: its own span and the sibling p) instead of remaining a root. -/
theorem c3_counterexample :
    domBuilder 9 [.recItem (some (.arr ["div", "span"])) none none none none none
        none none none, .strItem "p"] none false ⟨[]⟩
      = some (⟨[⟨"div", [], [1, 2], ""⟩, ⟨"span", [], [], ""⟩, ⟨"p", [], [], ""⟩]⟩,
          some 1) := by decide

/-- C3 (witness): the restore invariant applied to a concrete chain item
processed under a present parent: the parent pointer is back on node 0
afterwards. -/
theorem c3_witness :
    processOne (build 8)
        (.recItem (some (.arr ["div", "span"])) none none none none none none none none)
        ⟨⟨[⟨"body", [], [], ""⟩]⟩, some 0, none, none, none⟩
      = some ⟨⟨[⟨"body", [], [1], ""⟩, ⟨"div", [], [2], ""⟩, ⟨"span", [], [], ""⟩]⟩,
          some 0, some 2, some 2, some 0⟩
    ∧ (⟨⟨[⟨"body", [], [1], ""⟩, ⟨"div", [], [2], ""⟩, ⟨"span", [], [], ""⟩]⟩,
        some 0, some 2, some 2, some 0⟩ : BuildSt).parentV = some 0 :=
  ⟨by decide,
    (c3_restore_amended (build 8)
      (.recItem (some (.arr ["div", "span"])) none none none none none none none none)
      ⟨⟨[⟨"body", [], [], ""⟩]⟩, some 0, none, none, none⟩
      ⟨⟨[⟨"body", [], [1], ""⟩, ⟨"div", [], [2], ""⟩, ⟨"span", [], [], ""⟩]⟩,
        some 0, some 2, some 2, some 0⟩
      0 rfl (Or.inl rfl) (by decide)).1⟩

/-- C4 (counterexample): the claim says the chain item with outer className
"extra" gives the span a class list containing both "extra" and its parsed
class "b"; the spread of line 115 replaces the parsed className, so the
span's class attribute is exactly "extra" and "b" is not in its class
list. -/
theorem c4_counterexample :
    domBuilder 9 [.recItem (some (.arr ["div.a", "span.b"])) none (some (.str "extra"))
        none none none none none none] none false ⟨[]⟩
      = some (⟨[⟨"div", [("class", "a")], [1], ""⟩,
          ⟨"span", [("class", "extra")], [], ""⟩]⟩, some 1)
    ∧ ¬ ("b".toList ∈ splitOnP (fun c => c = ' ') "extra".toList) := by decide

/-- C4 (amended): building the single chain item with tag ["div.a",
"span.b"] and className "extra" produces a div whose class list is exactly
"a", containing exactly one child span, and that span carries exactly the
outer className "extra": the object-level className replaces the segment's
parsed class "b" rather than merging with it. -/
theorem c4_chain_isolation_amended :
    (domBuilder 9 [.recItem (some (.arr ["div.a", "span.b"])) none (some (.str "extra"))
        none none none none none none] none false ⟨[]⟩).map
        (fun r => r.1.nodes.map (fun nd => (nd.tag, lookupA nd.attrs "class", nd.childIds)))
      = some [("div", some "a", [1]), ("span", some "extra", [])] := by decide

/-- C2 (witness): the skip statement for unparsable strings applied at the
concrete item "#" (whose parse returns none). -/
theorem c2_witness :
    build 3 [BItem.strItem "#"] ⟨⟨[]⟩, none, none, none, none⟩
      = build 3 [] ⟨⟨[]⟩, none, none, none, none⟩ :=
  c2_skip_amended.2.1 3 [] ⟨⟨[]⟩, none, none, none, none⟩ "#" (by decide) (by decide)
